import Mathlib

/-!
Verification of the splat-transform ingestion / combine / commit pipeline
(`src/index.ts`) against its specification.

Filenames are modelled as `List Char`; exceptions as `Except`; the
filesystem as a map from paths to byte contents; the external format
codecs (readers/writers) and `processDataTable` as oracle parameters,
matching the spec's treatment of them as black-box collaborators.
-/

set_option maxRecDepth 4000

/-- Modelled from the spec: element types of columnar buffers
(`data-table.ts` is not part of the provided sources). The concrete set of
numeric element types does not matter for the pipeline's claims; a
representative set is used. -/
inductive DataType where
  | float32
  | float64
  | int8
  | uint8
  | int16
  | uint16
  | int32
  | uint32
deriving DecidableEq, Repr

/-- Modelled from the spec: the zero value a freshly allocated typed array
holds at every index, for each element type. All JS typed arrays are
zero-initialised; values are modelled as integers. -/
def DataType.zeroVal : DataType → Int := fun _ => 0

/-- Modelled from the spec: a named, typed columnar buffer
(`data-table.ts` is not part of the provided sources). -/
structure Column where
  name : String
  dataType : DataType
  data : List Int
deriving DecidableEq, Repr

/-- Modelled from the spec: a table is an ordered sequence of columns
(`data-table.ts` is not part of the provided sources). -/
structure DataTable where
  columns : List Column
deriving DecidableEq, Repr

/-- Modelled from the spec: `numRows` is the common length of the table's
columns (0 for a table with no columns). -/
def DataTable.numRows (t : DataTable) : Nat :=
  match t.columns with
  | [] => 0
  | c :: _ => c.data.length

/-- Modelled from the spec: `hasColumn` tests whether a column with the
given name is present. -/
def DataTable.hasColumn (t : DataTable) (name : String) : Bool :=
  t.columns.any (fun c => c.name == name)

/-- Distinctness of column identities: the (name, elementType) pairs
differ. -/
def distinctIdent (a b : Column) : Prop :=
  ¬(a.name = b.name ∧ a.dataType = b.dataType)

instance : DecidableRel distinctIdent := by
  unfold distinctIdent
  infer_instance

/-- Well-formedness per the spec's data-model invariant: all columns have
length `numRows`, and column identities (name, elementType) are pairwise
distinct within one table. -/
def DataTable.wf (t : DataTable) : Prop :=
  (∀ c ∈ t.columns, c.data.length = t.numRows) ∧
  t.columns.Pairwise distinctIdent

instance (t : DataTable) : Decidable t.wf := by
  unfold DataTable.wf
  infer_instance

/-- Errors thrown by the pipeline, and opaque codec/sync errors. -/
inductive Err where
  | unsupportedInput (filename : List Char)
  | unsupportedOutput (filename : List Char)
  | openFailed
  | codec (tag : Nat)
  | sync (tag : Nat)
  | unsupportedData (filename : List Char)
  | noSplats
  | crash
deriving DecidableEq, Repr

/-- Output format tags returned by `getOutputFormat`. -/
inductive OutputFormat where
  | csv
  | lod
  | sog
  | compressedPly
  | ply
  | html
deriving DecidableEq, Repr

/-- Lowercasing of a filename, as in `filename.toLowerCase()`. -/
def strLower (s : List Char) : List Char := s.map Char.toLower

/-- Suffix test, as in `String.prototype.endsWith`. -/
def strEndsWith (s p : List Char) : Bool := p.isSuffixOf s

/-- Translation of `getOutputFormat` (src/index.ts:68-86): test suffixes of
the lowercased filename in order .csv, lod-meta.json, (.sog or meta.json),
.compressed.ply, .ply, .html; first match wins, no match throws. -/
def getOutputFormat (filename : List Char) : Except Err OutputFormat :=
  let lowerFilename := strLower filename
  if strEndsWith lowerFilename ".csv".toList then .ok .csv
  else if strEndsWith lowerFilename "lod-meta.json".toList then .ok .lod
  else if strEndsWith lowerFilename ".sog".toList ||
          strEndsWith lowerFilename "meta.json".toList then .ok .sog
  else if strEndsWith lowerFilename ".compressed.ply".toList then .ok .compressedPly
  else if strEndsWith lowerFilename ".ply".toList then .ok .ply
  else if strEndsWith lowerFilename ".html".toList then .ok .html
  else .error (.unsupportedOutput filename)

/-- The 13 required splat-schema column names (src/index.ts:191-196). -/
def requiredColumns : List String :=
  ["x", "y", "z",
   "rot_0", "rot_1", "rot_2", "rot_3",
   "scale_0", "scale_1", "scale_2",
   "f_dc_0", "f_dc_1", "f_dc_2",
   "opacity"]

/-- Translation of `isGSDataTable` (src/index.ts:190-201): false unless
every required column name is present. -/
def isGSDataTable (dataTable : DataTable) : Bool :=
  if !(requiredColumns.all (fun c => dataTable.hasColumn c)) then
    false
  else
    true

/-- Column-identity match used throughout `combine`: equal name and equal
data type (src/index.ts:144-145). -/
def colMatch (a b : Column) : Bool :=
  a.name == b.name && a.dataType == b.dataType

/-- Translation of `findMatchingColumn` (src/index.ts:142-150): first
column in the list matching the given column's (name, dataType), if any. -/
def findMatchingColumn (columns : List Column) (column : Column) : Option Column :=
  columns.find? (fun c => colMatch c column)

/-- Translation of the unified-column construction (src/index.ts:152-161):
start from the first table's columns and append each later column whose
identity is not yet present. -/
def unifyColumns (dataTables : List DataTable) : List Column :=
  match dataTables with
  | [] => []
  | t0 :: rest =>
    rest.foldl
      (fun acc t =>
        t.columns.foldl
          (fun acc2 c =>
            if (findMatchingColumn acc2 c).isSome then acc2 else acc2 ++ [c])
          acc)
      t0.columns

/-- Semantics of `targetColumn.data.set(column.data, rowOffset)` on an
immutable list: overwrite `src.length` entries of `dst` starting at
`offset`. -/
def setData (dst src : List Int) (offset : Nat) : List Int :=
  dst.take offset ++ src ++ dst.drop (offset + src.length)

/-- One copy step of the copy phase (src/index.ts:178-182): find the first
result column matching the input column's identity and write the input
column's data into it at `rowOffset`. (A missing match is impossible by
construction; it leaves the columns unchanged here, where the source would
crash.) -/
def copyColumnIn : List Column → Column → Nat → List Column
  | [], _, _ => []
  | tc :: rest, c, rowOffset =>
    if colMatch tc c then
      { tc with data := setData tc.data c.data rowOffset } :: rest
    else
      tc :: copyColumnIn rest c rowOffset

/-- Copy all columns of one input table into the result columns at a fixed
row offset (inner loop of src/index.ts:178-182). -/
def copyTable (cols : List Column) (t : DataTable) (rowOffset : Nat) : List Column :=
  t.columns.foldl (fun acc c => copyColumnIn acc c rowOffset) cols

/-- Copy phase over all input tables (src/index.ts:174-185), threading the
running `rowOffset` incremented by each table's `numRows`. -/
def copyTables : List Column → List DataTable → Nat → List Column
  | cols, [], _ => cols
  | cols, t :: rest, rowOffset =>
    copyTables (copyTable cols t rowOffset) rest (rowOffset + t.numRows)

/-- Translation of `combine` (src/index.ts:136-188). A singleton input is
returned unchanged; the general path unifies column identities, allocates
zero-filled output columns of `totalRows` elements, and runs the copy
phase. The empty input, on which the source crashes dereferencing
`dataTables[0]`, is `none`. -/
def combine (dataTables : List DataTable) : Option DataTable :=
  match dataTables with
  | [] => none
  | [t] => some t
  | _ =>
    let columns := unifyColumns dataTables
    let totalRows := (dataTables.map DataTable.numRows).sum
    let resultColumns := columns.map
      (fun column => Column.mk column.name column.dataType
        (List.replicate totalRows column.dataType.zeroVal))
    some (DataTable.mk (copyTables resultColumns dataTables 0))

/-- Per-identity contribution of one input table to an output column: the
matching column's data if present, otherwise `numRows` zeroes of the
output column's element type. -/
def identData (t : DataTable) (c : Column) : List Int :=
  match findMatchingColumn t.columns c with
  | some c2 => c2.data
  | none => List.replicate t.numRows c.dataType.zeroVal

/-- CLI options record (src/index.ts:18-25). -/
structure Options where
  overwrite : Bool
  help : Bool
  version : Bool
  cpu : Bool
  iterations : Nat
  viewerSettingsPath : Option (List Char) := none
deriving DecidableEq, Repr

/-- Device selection string forwarded to the sog/lod writers. -/
inductive CpuGpu where
  | cpu
  | gpu
deriving DecidableEq, Repr

/-- File contents as a byte list. -/
def Content : Type := List Nat
deriving instance DecidableEq, Repr for Content

/-- A filesystem snapshot: path to contents mapping, `none` meaning the
path is absent. -/
def Fs : Type := List Char → Option Content

/-- Pointwise update of a filesystem snapshot. -/
def Fs.set (fs : Fs) (p : List Char) (v : Option Content) : Fs :=
  fun q => if q = p then v else fs q

/-- Element of a file record: a named table (src/index.ts elements). -/
structure Element where
  name : List Char
  dataTable : DataTable
deriving DecidableEq, Repr

/-- Format-neutral file record produced by every reader. -/
structure FileData where
  comments : List (List Char)
  elements : List Element
deriving DecidableEq, Repr

/-- Oracle behaviours of the external writer codecs and of `fsync`: each
writer either produces the bytes it would leave in the temporary file or
throws; `junk` is whatever partial bytes a failed writer left behind. -/
structure WriteEnv where
  pidStr : List Char
  tsStr : List Char
  hexStr : List Char
  writeSog : DataTable → List Char → Nat → CpuGpu → Except Err Content
  writeLod : DataTable → List Char → Nat → CpuGpu → Except Err Content
  writeCompressedPly : DataTable → Except Err Content
  writePly : FileData → Except Err Content
  syncResult : Except Err Unit
  junk : Content

/-- Basename of a path: the part after the last '/'. -/
def baseName (f : List Char) : List Char :=
  (f.reverse.takeWhile (fun ch => ch ≠ '/')).reverse

/-- Directory part of a path, kept with its trailing '/', so that
`dirPart f ++ baseName f = f`. -/
def dirPart (f : List Char) : List Char :=
  (f.reverse.dropWhile (fun ch => ch ≠ '/')).reverse

/-- Temporary staging filename (src/index.ts:95):
`.<basename>.<pid>.<timestamp>.<randomhex>.tmp`. -/
def tmpName (env : WriteEnv) (base : List Char) : List Char :=
  ('.' :: base) ++ ('.' :: env.pidStr) ++ ('.' :: env.tsStr) ++
    ('.' :: env.hexStr) ++ ".tmp".toList

/-- Temporary staging path: the temporary filename joined to the target's
directory (src/index.ts:96). -/
def tmpPath (env : WriteEnv) (filename : List Char) : List Char :=
  dirPart filename ++ tmpName env (baseName filename)

/-- The format switch of `writeFile` (src/index.ts:103-122): dispatch to
the codec for the resolved kind; `csv` and `html` have no case, so the
freshly created temporary file keeps its empty contents. -/
def dispatchCodec (env : WriteEnv) (outputFormat : OutputFormat)
    (dataTable : DataTable) (filename : List Char) (options : Options) :
    Except Err Content :=
  match outputFormat with
  | .sog =>
    env.writeSog dataTable filename options.iterations
      (if options.cpu then .cpu else .gpu)
  | .lod =>
    env.writeLod dataTable filename options.iterations
      (if options.cpu then .cpu else .gpu)
  | .compressedPly => env.writeCompressedPly dataTable
  | .ply =>
    env.writePly (FileData.mk [] [Element.mk "vertex".toList dataTable])
  | .csv => .ok []
  | .html => .ok []

/-- Translation of `writeFile` (src/index.ts:88-132): resolve the output
kind (throws before touching any file), open the temporary path with
exclusive-create semantics, dispatch the codec, fsync, close (errors
swallowed), and finally rename the temporary file onto the target. On a
codec or fsync failure the temporary file is abandoned with whatever bytes
it holds and the target is untouched. -/
def writeFile (env : WriteEnv) (fs : Fs) (filename : List Char)
    (dataTable : DataTable) (options : Options) : Except Err Unit × Fs :=
  match getOutputFormat filename with
  | .error e => (.error e, fs)
  | .ok outputFormat =>
    let tmpPathname := tmpPath env filename
    match fs tmpPathname with
    | some _ => (.error .openFailed, fs)
    | none =>
      match dispatchCodec env outputFormat dataTable filename options with
      | .error e => (.error e, fs.set tmpPathname (some env.junk))
      | .ok content =>
        match env.syncResult with
        | .error e => (.error e, fs.set tmpPathname (some content))
        | .ok _ =>
          (.ok (), (fs.set tmpPathname none).set filename (some content))

/-- What became of the input file handle opened by `readFile`: never
opened, closed before return, or left open when an exception propagated. -/
inductive HandleOutcome where
  | noHandle
  | closed
  | leaked
deriving DecidableEq, Repr

/-- Oracle behaviours of the external reader codecs: what each reader
returns or throws for the single input file, plus the result of the
initial `open` and the pure ply helpers. -/
structure ReadEnv where
  readMjs : Except Err FileData
  readKsplat : Except Err FileData
  readSplat : Except Err FileData
  readSog : Except Err FileData
  readPly : Except Err FileData
  readSpz : Except Err FileData
  isCompressedPly : FileData → Bool
  decompressPly : FileData → DataTable
  openResult : Except Err Unit

/-- Translation of `readFile` (src/index.ts:29-66), additionally recording
the fate of the input handle. `.mjs` inputs never open a handle; otherwise
a handle is opened and the suffix chain dispatches a reader. The explicit
`close` calls sit on the success path (line 63) and on the
unsupported-type path (line 59); there is no try/finally, so a reader
exception propagates with the handle still open (`leaked`). -/
def readFile (env : ReadEnv) (filename : List Char) :
    Except Err FileData × HandleOutcome :=
  let lowerFilename := strLower filename
  if strEndsWith lowerFilename ".mjs".toList then
    (env.readMjs, .noHandle)
  else
    match env.openResult with
    | .error e => (.error e, .noHandle)
    | .ok _ =>
      if strEndsWith lowerFilename ".ksplat".toList then
        match env.readKsplat with
        | .error e => (.error e, .leaked)
        | .ok fileData => (.ok fileData, .closed)
      else if strEndsWith lowerFilename ".splat".toList then
        match env.readSplat with
        | .error e => (.error e, .leaked)
        | .ok fileData => (.ok fileData, .closed)
      else if strEndsWith lowerFilename ".sog".toList ||
              strEndsWith lowerFilename "meta.json".toList then
        match env.readSog with
        | .error e => (.error e, .leaked)
        | .ok fileData => (.ok fileData, .closed)
      else if strEndsWith lowerFilename ".ply".toList then
        match env.readPly with
        | .error e => (.error e, .leaked)
        | .ok ply =>
          if env.isCompressedPly ply then
            (.ok (FileData.mk ply.comments
              [Element.mk "vertex".toList (env.decompressPly ply)]), .closed)
          else
            (.ok ply, .closed)
      else if strEndsWith lowerFilename ".spz".toList then
        match env.readSpz with
        | .error e => (.error e, .leaked)
        | .ok fileData => (.ok fileData, .closed)
      else
        (.error (.unsupportedInput filename), .closed)

/-- Oracle behaviour of the external `processDataTable` transform, called
once per source table before combine and once on the merged table. -/
structure ProcEnv where
  process : DataTable → Except Err DataTable

/-- Discriminated result returned by the pipeline entry point
(src/index.ts:250-259). -/
inductive ConvertResult where
  | ok
  | fail (e : Err)
deriving DecidableEq, Repr

/-- The options record `convertGsplat` builds internally
(src/index.ts:239-245). -/
def defaultOptions : Options :=
  { overwrite := true, help := false, version := false,
    cpu := true, iterations := 10 }

/-- Exception-style semantics of the body of `convertGsplat`'s try block
(src/index.ts:204-252): the stages composed with raw error propagation,
each failure carrying the filesystem state at the moment it was raised. -/
def convertBody (renv : ReadEnv) (penv : ProcEnv) (wenv : WriteEnv)
    (fs : Fs) (filename outputFilename : List Char) :
    Except (Err × Fs) Fs :=
  match (readFile renv filename).1 with
  | .error e => .error (e, fs)
  | .ok file =>
    match file.elements with
    | [element] =>
      if element.name = "vertex".toList then
        if element.dataTable.numRows = 0 ∨ !isGSDataTable element.dataTable then
          .error (.unsupportedData filename, fs)
        else
          match penv.process element.dataTable with
          | .error e => .error (e, fs)
          | .ok dataTable1 =>
            match combine [dataTable1] with
            | none => .error (.crash, fs)
            | some combined =>
              match penv.process combined with
              | .error e => .error (e, fs)
              | .ok dataTable =>
                if dataTable.numRows = 0 then
                  .error (.noSplats, fs)
                else
                  match writeFile wenv fs outputFilename dataTable defaultOptions with
                  | (.error e, fs') => .error (e, fs')
                  | (.ok _, fs') => .ok fs'
      else
        .error (.unsupportedData filename, fs)
    | _ => .error (.unsupportedData filename, fs)

/-- Translation of `convertGsplat` (src/index.ts:203-261): the same stages
with the surrounding try/catch inlined, every raised error returned
immediately as the tagged failure result. -/
def convertGsplat (renv : ReadEnv) (penv : ProcEnv) (wenv : WriteEnv)
    (fs : Fs) (filename outputFilename : List Char) :
    ConvertResult × Fs :=
  match (readFile renv filename).1 with
  | .error e => (.fail e, fs)
  | .ok file =>
    match file.elements with
    | [element] =>
      if element.name = "vertex".toList then
        if element.dataTable.numRows = 0 ∨ !isGSDataTable element.dataTable then
          (.fail (.unsupportedData filename), fs)
        else
          match penv.process element.dataTable with
          | .error e => (.fail e, fs)
          | .ok dataTable1 =>
            match combine [dataTable1] with
            | none => (.fail .crash, fs)
            | some combined =>
              match penv.process combined with
              | .error e => (.fail e, fs)
              | .ok dataTable =>
                if dataTable.numRows = 0 then
                  (.fail .noSplats, fs)
                else
                  match writeFile wenv fs outputFilename dataTable defaultOptions with
                  | (.error e, fs') => (.fail e, fs')
                  | (.ok _, fs') => (.ok, fs')
      else
        (.fail (.unsupportedData filename), fs)
    | _ => (.fail (.unsupportedData filename), fs)

/-! ### Suffix-resolution lemmas -/

theorem strEndsWith_eq_true {lf pat : List Char} (h : pat <:+ lf) :
    strEndsWith lf pat = true := by
  simpa [strEndsWith, List.isSuffixOf_iff_suffix] using h

theorem strEndsWith_eq_false {lf pat1 pat2 : List Char} (hl : pat2 <:+ lf)
    (hle : pat1.length ≤ pat2.length) (hno : ¬ pat1 <:+ pat2) :
    strEndsWith lf pat1 = false := by
  simp only [strEndsWith, ← Bool.not_eq_true, List.isSuffixOf_iff_suffix]
  intro h1
  exact hno (List.suffix_of_suffix_length_le h1 hl hle)

theorem strEndsWith_eq_false_of_not {lf pat : List Char} (h : ¬ pat <:+ lf) :
    strEndsWith lf pat = false := by
  simp only [strEndsWith, ← Bool.not_eq_true, List.isSuffixOf_iff_suffix]
  exact h

theorem suffix_strLower {p f : List Char} (h : p <:+ f)
    (hp : strLower p = p) : p <:+ strLower f := by
  have h2 := h.map Char.toLower
  rwa [show p.map Char.toLower = strLower p from rfl, hp] at h2

/-- C6: output-format resolution is first-match over the suffix order
.csv, lod-meta.json, (.sog or meta.json), .compressed.ply, .ply, .html:
every filename ending in '.compressed.ply' resolves to compressed-ply
(never ply), every filename ending in 'lod-meta.json' resolves to lod
(never sog), and a filename matching none of the suffixes fails with the
unsupported-output error. -/
theorem getOutputFormat_suffix_order :
    (∀ f : List Char, ".compressed.ply".toList <:+ f →
      getOutputFormat f = .ok .compressedPly) ∧
    (∀ f : List Char, "lod-meta.json".toList <:+ f →
      getOutputFormat f = .ok .lod) ∧
    (∀ f : List Char,
      (∀ p ∈ [".csv", "lod-meta.json", ".sog", "meta.json", ".compressed.ply",
              ".ply", ".html"], ¬ p.toList <:+ strLower f) →
      getOutputFormat f = .error (.unsupportedOutput f)) := by
  refine ⟨fun f h => ?_, fun f h => ?_, fun f h => ?_⟩
  · have hl : ".compressed.ply".toList <:+ strLower f :=
      suffix_strLower h (by decide)
    have h1 : strEndsWith (strLower f) ['.', 'c', 's', 'v'] = false :=
      strEndsWith_eq_false hl (by decide) (by decide)
    have h2 : strEndsWith (strLower f)
        ['l', 'o', 'd', '-', 'm', 'e', 't', 'a', '.', 'j', 's', 'o', 'n'] = false :=
      strEndsWith_eq_false hl (by decide) (by decide)
    have h3 : strEndsWith (strLower f) ['.', 's', 'o', 'g'] = false :=
      strEndsWith_eq_false hl (by decide) (by decide)
    have h4 : strEndsWith (strLower f)
        ['m', 'e', 't', 'a', '.', 'j', 's', 'o', 'n'] = false :=
      strEndsWith_eq_false hl (by decide) (by decide)
    have h5 : strEndsWith (strLower f)
        ['.', 'c', 'o', 'm', 'p', 'r', 'e', 's', 's', 'e', 'd', '.', 'p', 'l', 'y'] = true :=
      strEndsWith_eq_true hl
    simp [getOutputFormat, h1, h2, h3, h4, h5]
  · have hl : "lod-meta.json".toList <:+ strLower f :=
      suffix_strLower h (by decide)
    have h1 : strEndsWith (strLower f) ['.', 'c', 's', 'v'] = false :=
      strEndsWith_eq_false hl (by decide) (by decide)
    have h2 : strEndsWith (strLower f)
        ['l', 'o', 'd', '-', 'm', 'e', 't', 'a', '.', 'j', 's', 'o', 'n'] = true :=
      strEndsWith_eq_true hl
    simp [getOutputFormat, h1, h2]
  · simp only [List.mem_cons, List.not_mem_nil, or_false, forall_eq_or_imp,
      forall_eq] at h
    obtain ⟨n1, n2, n3, n4, n5, n6, n7⟩ := h
    have m1 : strEndsWith (strLower f) ['.', 'c', 's', 'v'] = false :=
      strEndsWith_eq_false_of_not n1
    have m2 : strEndsWith (strLower f)
        ['l', 'o', 'd', '-', 'm', 'e', 't', 'a', '.', 'j', 's', 'o', 'n'] = false :=
      strEndsWith_eq_false_of_not n2
    have m3 : strEndsWith (strLower f) ['.', 's', 'o', 'g'] = false :=
      strEndsWith_eq_false_of_not n3
    have m4 : strEndsWith (strLower f)
        ['m', 'e', 't', 'a', '.', 'j', 's', 'o', 'n'] = false :=
      strEndsWith_eq_false_of_not n4
    have m5 : strEndsWith (strLower f)
        ['.', 'c', 'o', 'm', 'p', 'r', 'e', 's', 's', 'e', 'd', '.', 'p', 'l', 'y'] = false :=
      strEndsWith_eq_false_of_not n5
    have m6 : strEndsWith (strLower f) ['.', 'p', 'l', 'y'] = false :=
      strEndsWith_eq_false_of_not n6
    have m7 : strEndsWith (strLower f) ['.', 'h', 't', 'm', 'l'] = false :=
      strEndsWith_eq_false_of_not n7
    simp [getOutputFormat, m1, m2, m3, m4, m5, m6, m7]

theorem getOutputFormat_suffix_order_witness :
    (".compressed.ply".toList <:+ "a.compressed.ply".toList ∧
      getOutputFormat "a.compressed.ply".toList = .ok .compressedPly) ∧
    ("lod-meta.json".toList <:+ "a.lod-meta.json".toList ∧
      getOutputFormat "a.lod-meta.json".toList = .ok .lod) ∧
    getOutputFormat "a.txt".toList = .error (.unsupportedOutput "a.txt".toList) :=
  ⟨⟨by decide, getOutputFormat_suffix_order.1 _ (by decide)⟩,
   ⟨by decide, getOutputFormat_suffix_order.2.1 _ (by decide)⟩,
   getOutputFormat_suffix_order.2.2 _ (by decide)⟩

/-! ### Schema predicate -/

/-- C5 counterexample: the required splat-schema column set enumerated in
src/index.ts:191-196 has 14 names, not 13. -/
theorem requiredColumns_length_ne_13 : ¬ requiredColumns.length = 13 := by
  decide

/-- C5 (amended to 14 columns): `isGSDataTable` returns true iff every one
of the 14 required columns is present, and hence false as soon as any one
of them is absent, regardless of extra columns or column order. -/
theorem isGSDataTable_iff (t : DataTable) :
    isGSDataTable t = true ↔
      ∀ name ∈ requiredColumns, t.hasColumn name = true := by
  unfold isGSDataTable
  rcases h : requiredColumns.all (fun c => t.hasColumn c) with _ | _
  · simp only [h, Bool.not_false, if_true]
    constructor
    · intro hfalse
      cases hfalse
    · intro hall
      rw [← h, List.all_eq_true]
      intro c hc
      exact hall c hc
  · simp only [h, Bool.not_true, if_false]
    rw [List.all_eq_true] at h
    exact ⟨fun _ name hn => h name hn, fun _ => rfl⟩

theorem isGSDataTable_iff_witness :
    isGSDataTable (DataTable.mk
      ((requiredColumns.map (fun n => Column.mk n .float32 [0])) ++
        [Column.mk "extra" .uint8 [3]])) = true ∧
    isGSDataTable (DataTable.mk [Column.mk "x" .float32 [0]]) = false := by
  constructor
  · exact (isGSDataTable_iff _).mpr (by decide)
  · rcases h : isGSDataTable (DataTable.mk [Column.mk "x" .float32 [0]]) with _ | _
    · rfl
    · have := (isGSDataTable_iff (DataTable.mk [Column.mk "x" .float32 [0]])).mp h
      have h2 := this "y" (by decide)
      simp [DataTable.hasColumn] at h2

/-! ### Combine: singleton identity -/

/-- C8: `combine` applied to a singleton sequence returns that very table
unchanged (src/index.ts:137-140). -/
theorem combine_singleton (t : DataTable) : combine [t] = some t := rfl

/-! ### Commit-writer path lemmas -/

theorem strEndsWith_eq_false' {lf pat1 pat2 : List Char} (hl : pat2 <:+ lf)
    (hle : pat2.length ≤ pat1.length) (hno : ¬ pat2 <:+ pat1) :
    strEndsWith lf pat1 = false := by
  simp only [strEndsWith, ← Bool.not_eq_true, List.isSuffixOf_iff_suffix]
  intro h1
  exact hno (List.suffix_of_suffix_length_le hl h1 hle)

theorem dirPart_append_baseName (f : List Char) : dirPart f ++ baseName f = f := by
  unfold dirPart baseName
  rw [← List.reverse_append, List.takeWhile_append_dropWhile, List.reverse_reverse]

theorem tmpName_ne_baseName (env : WriteEnv) (b : List Char) :
    tmpName env b ≠ b := by
  intro h
  have hlen := congrArg List.length h
  simp only [tmpName, List.length_append, List.length_cons] at hlen
  omega

/-- The staging path is never the target path: the temporary filename is
strictly longer than the target's basename. -/
theorem tmpPath_ne (env : WriteEnv) (f : List Char) : tmpPath env f ≠ f := by
  intro h
  have h2 : dirPart f ++ tmpName env (baseName f) = dirPart f ++ baseName f := by
    rw [dirPart_append_baseName]
    exact h
  exact tmpName_ne_baseName env (baseName f) (List.append_cancel_left h2)

/-- C1: whenever `writeFile` fails, the contents at the target path are
exactly what they were before the call, and an output-kind resolution
failure leaves the whole filesystem untouched; the rename onto the target
happens only on the all-successful path. -/
theorem writeFile_failure_preserves_target
    (env : WriteEnv) (fs : Fs) (filename : List Char) (dataTable : DataTable)
    (options : Options) :
    (∀ e, (writeFile env fs filename dataTable options).1 = .error e →
      (writeFile env fs filename dataTable options).2 filename = fs filename) ∧
    (∀ e, getOutputFormat filename = .error e →
      (writeFile env fs filename dataTable options).2 = fs) := by
  have hne : ¬ (filename = tmpPath env filename) :=
    fun h => tmpPath_ne env filename h.symm
  constructor
  · intro e he
    unfold writeFile at he ⊢
    rcases hf : getOutputFormat filename with e' | fmt
    · simp [hf]
    · simp only [hf] at he ⊢
      rcases htmp : fs (tmpPath env filename) with _ | c
      · simp only [htmp] at he ⊢
        rcases hd : dispatchCodec env fmt dataTable filename options with e2 | content
        · simp only [hd, Fs.set, if_neg hne]
        · simp only [hd] at he ⊢
          rcases hs : env.syncResult with e3 | u
          · simp only [hs, Fs.set, if_neg hne]
          · simp only [hs] at he
            cases he
      · simp [htmp]
  · intro e he
    unfold writeFile
    simp [he]

/-- A concrete table used by the evaluation witnesses. -/
def sampleTable : DataTable := DataTable.mk [Column.mk "x" .float32 [1]]

/-- The empty filesystem used by the evaluation witnesses. -/
def emptyFs : Fs := fun _ => none

/-- A writer environment whose codecs all throw. -/
def wEnvFail : WriteEnv :=
  WriteEnv.mk "1".toList "2".toList "ab".toList
    (fun _ _ _ _ => .error (.codec 1)) (fun _ _ _ _ => .error (.codec 2))
    (fun _ => .error (.codec 3)) (fun _ => .error (.codec 4)) (.ok ()) [7]

/-- A writer environment whose codecs all succeed. -/
def wEnvOk : WriteEnv :=
  WriteEnv.mk "1".toList "2".toList "ab".toList
    (fun _ _ _ _ => .ok [1]) (fun _ _ _ _ => .ok [2])
    (fun _ => .ok [3]) (fun _ => .ok [4]) (.ok ()) [7]

/-- C1 witness: a failing ply codec leaves the absent target absent, and an
unsupported output suffix leaves the filesystem untouched. -/
theorem writeFile_failure_preserves_target_witness :
    (writeFile wEnvFail emptyFs "out.ply".toList sampleTable defaultOptions).2
        "out.ply".toList = emptyFs "out.ply".toList ∧
    (writeFile wEnvFail emptyFs "out.txt".toList sampleTable defaultOptions).2 = emptyFs :=
  ⟨(writeFile_failure_preserves_target wEnvFail emptyFs "out.ply".toList sampleTable
      defaultOptions).1 (.codec 4) (by rfl),
   (writeFile_failure_preserves_target wEnvFail emptyFs "out.txt".toList sampleTable
      defaultOptions).2 (.unsupportedOutput "out.txt".toList) (by rfl)⟩

/-- C9: two runs of `writeFile` whose option records differ only in the
`overwrite` flag behave identically, and a successful run always installs
the new content at the target, replacing any existing file there. -/
theorem writeFile_overwrite_irrelevant
    (env : WriteEnv) (fs : Fs) (filename : List Char) (dataTable : DataTable)
    (o1 o2 : Options)
    (hh : o1.help = o2.help) (hv : o1.version = o2.version)
    (hc : o1.cpu = o2.cpu) (hi : o1.iterations = o2.iterations)
    (hp : o1.viewerSettingsPath = o2.viewerSettingsPath) :
    writeFile env fs filename dataTable o1 = writeFile env fs filename dataTable o2 ∧
    (∀ prior, fs filename = some prior →
      (writeFile env fs filename dataTable o1).1 = .ok () →
      ∃ c, (writeFile env fs filename dataTable o1).2 filename = some c) := by
  constructor
  · cases o1
    cases o2
    simp only at hh hv hc hi hp
    subst hh hv hc hi hp
    rfl
  · intro prior _ hok
    unfold writeFile at hok ⊢
    rcases hf : getOutputFormat filename with e' | fmt
    · simp only [hf] at hok
      cases hok
    · simp only [hf] at hok ⊢
      rcases htmp : fs (tmpPath env filename) with _ | c
      · simp only [htmp] at hok ⊢
        rcases hd : dispatchCodec env fmt dataTable filename o1 with e2 | content
        · simp only [hd] at hok
          cases hok
        · simp only [hd] at hok ⊢
          rcases hs : env.syncResult with e3 | u
          · simp only [hs] at hok
            cases hok
          · exact ⟨content, by simp [hs, Fs.set]⟩
      · simp only [htmp] at hok
        cases hok

/-- A filesystem already holding a file at the target path `out.ply`. -/
def fsPrior : Fs := fun q => if q = "out.ply".toList then some [9] else none

/-- C9 witness: flipping only `overwrite` leaves the run unchanged, and the
successful rename replaces the pre-existing target contents. -/
theorem writeFile_overwrite_irrelevant_witness :
    writeFile wEnvOk fsPrior "out.ply".toList sampleTable
        { defaultOptions with overwrite := true } =
      writeFile wEnvOk fsPrior "out.ply".toList sampleTable
        { defaultOptions with overwrite := false } ∧
    ∃ c, (writeFile wEnvOk fsPrior "out.ply".toList sampleTable
        { defaultOptions with overwrite := true }).2 "out.ply".toList = some c :=
  ⟨(writeFile_overwrite_irrelevant wEnvOk fsPrior "out.ply".toList sampleTable
      _ _ rfl rfl rfl rfl rfl).1,
   (writeFile_overwrite_irrelevant wEnvOk fsPrior "out.ply".toList sampleTable
      _ { defaultOptions with overwrite := false } rfl rfl rfl rfl rfl).2
     [9] (by rfl) (by rfl)⟩

/-- C10: for a target name ending in `.csv` or `.html` the output kind
resolves, no codec case runs, and a successful commit installs an empty
file at the target path. -/
theorem writeFile_csv_html_installs_empty
    (env : WriteEnv) (fs : Fs) (filename : List Char) (dataTable : DataTable)
    (options : Options)
    (hsuf : ".csv".toList <:+ filename ∨ ".html".toList <:+ filename)
    (htmp : fs (tmpPath env filename) = none)
    (hsync : env.syncResult = .ok ()) :
    (writeFile env fs filename dataTable options).1 = .ok () ∧
    (writeFile env fs filename dataTable options).2 filename = some [] := by
  have hfmt : getOutputFormat filename = .ok .csv ∨
      getOutputFormat filename = .ok .html := by
    rcases hsuf with h | h
    · left
      have hl : ".csv".toList <:+ strLower filename := suffix_strLower h (by decide)
      have h1 : strEndsWith (strLower filename) ['.', 'c', 's', 'v'] = true :=
        strEndsWith_eq_true hl
      simp [getOutputFormat, h1]
    · right
      have hl : ".html".toList <:+ strLower filename := suffix_strLower h (by decide)
      have h1 : strEndsWith (strLower filename) ['.', 'c', 's', 'v'] = false :=
        strEndsWith_eq_false hl (by decide) (by decide)
      have h2 : strEndsWith (strLower filename)
          ['l', 'o', 'd', '-', 'm', 'e', 't', 'a', '.', 'j', 's', 'o', 'n'] = false :=
        strEndsWith_eq_false' hl (by decide) (by decide)
      have h3 : strEndsWith (strLower filename) ['.', 's', 'o', 'g'] = false :=
        strEndsWith_eq_false hl (by decide) (by decide)
      have h4 : strEndsWith (strLower filename)
          ['m', 'e', 't', 'a', '.', 'j', 's', 'o', 'n'] = false :=
        strEndsWith_eq_false' hl (by decide) (by decide)
      have h5 : strEndsWith (strLower filename)
          ['.', 'c', 'o', 'm', 'p', 'r', 'e', 's', 's', 'e', 'd', '.', 'p', 'l', 'y'] = false :=
        strEndsWith_eq_false' hl (by decide) (by decide)
      have h6 : strEndsWith (strLower filename) ['.', 'p', 'l', 'y'] = false :=
        strEndsWith_eq_false hl (by decide) (by decide)
      have h7 : strEndsWith (strLower filename) ['.', 'h', 't', 'm', 'l'] = true :=
        strEndsWith_eq_true hl
      simp [getOutputFormat, h1, h2, h3, h4, h5, h6, h7]
  have hgoal : ∀ fmt, getOutputFormat filename = .ok fmt →
      dispatchCodec env fmt dataTable filename options = .ok [] →
      (writeFile env fs filename dataTable options).1 = .ok () ∧
      (writeFile env fs filename dataTable options).2 filename = some [] := by
    intro fmt hf hd
    unfold writeFile
    simp only [hf, htmp, hd, hsync, Fs.set]
    simp
  rcases hfmt with hf | hf
  · exact hgoal _ hf rfl
  · exact hgoal _ hf rfl

/-- C10 witness: writing `out.csv` with every codec available still
installs an empty file, because no codec case matches `csv`. -/
theorem writeFile_csv_html_installs_empty_witness :
    (writeFile wEnvOk emptyFs "out.csv".toList sampleTable defaultOptions).1 = .ok () ∧
    (writeFile wEnvOk emptyFs "out.csv".toList sampleTable defaultOptions).2
      "out.csv".toList = some [] :=
  writeFile_csv_html_installs_empty wEnvOk emptyFs "out.csv".toList sampleTable
    defaultOptions (Or.inl (by decide)) (by rfl) rfl

/-! ### Reader handle discipline -/

/-- A reader environment in which the ksplat codec throws. -/
def rEnvLeak : ReadEnv :=
  ReadEnv.mk (.ok (FileData.mk [] [])) (.error (.codec 7))
    (.ok (FileData.mk [] [])) (.ok (FileData.mk [] []))
    (.ok (FileData.mk [] [])) (.ok (FileData.mk [] []))
    (fun _ => false) (fun _ => DataTable.mk []) (.ok ())

/-- A reader environment in which every codec succeeds. -/
def rEnvOkRead : ReadEnv :=
  ReadEnv.mk (.ok (FileData.mk [] [])) (.ok (FileData.mk [] []))
    (.ok (FileData.mk [] [])) (.ok (FileData.mk [] []))
    (.ok (FileData.mk [] [])) (.ok (FileData.mk [] []))
    (fun _ => false) (fun _ => DataTable.mk []) (.ok ())

/-- C7 failing input: the handle is closed on the success path and on the
unsupported-input path, but when the dispatched ksplat reader throws, the
exception propagates with the handle still open — `readFile` has no
try/finally around its codec dispatch (src/index.ts:38-63). -/
theorem readFile_codec_error_leaks_handle :
    (readFile rEnvOkRead "a.ksplat".toList).2 = .closed ∧
    (readFile rEnvOkRead "a.xyz".toList).2 = .closed ∧
    readFile rEnvLeak "a.ksplat".toList = (.error (.codec 7), .leaked) :=
  ⟨rfl, rfl, rfl⟩

/-! ### Orchestrator result discipline -/

/-- C4: every execution of `convertGsplat` terminates in the discriminated
result that tags the outcome of the exception-style pipeline body — the
success tag when every stage succeeds, and the failure tag carrying the
stage's error otherwise; no exception escapes. -/
theorem convertGsplat_discriminated
    (renv : ReadEnv) (penv : ProcEnv) (wenv : WriteEnv) (fs : Fs)
    (filename outputFilename : List Char) :
    (∃ fs', convertBody renv penv wenv fs filename outputFilename = .ok fs' ∧
      convertGsplat renv penv wenv fs filename outputFilename = (.ok, fs')) ∨
    (∃ e fs', convertBody renv penv wenv fs filename outputFilename = .error (e, fs') ∧
      convertGsplat renv penv wenv fs filename outputFilename = (.fail e, fs')) := by
  unfold convertGsplat convertBody
  rcases hr : (readFile renv filename).1 with e | file
  · simp only [hr]
    exact Or.inr ⟨e, fs, rfl, rfl⟩
  · simp only [hr]
    rcases hfe : file.elements with _ | ⟨el, _ | ⟨e2, rest⟩⟩ <;> simp only [hfe]
    · exact Or.inr ⟨Err.unsupportedData filename, fs, rfl, rfl⟩
    · by_cases hn : el.name = "vertex".toList
      · rw [if_pos hn, if_pos hn]
        by_cases hz : el.dataTable.numRows = 0 ∨ !isGSDataTable el.dataTable
        · rw [if_pos hz, if_pos hz]
          exact Or.inr ⟨Err.unsupportedData filename, fs, rfl, rfl⟩
        · rw [if_neg hz, if_neg hz]
          rcases hp1 : penv.process el.dataTable with e | dt1 <;> simp only [hp1]
          · exact Or.inr ⟨e, fs, rfl, rfl⟩
          · rcases hc : combine [dt1] with _ | comb <;> simp only [hc]
            · exact Or.inr ⟨Err.crash, fs, rfl, rfl⟩
            · rcases hp2 : penv.process comb with e | dt2 <;> simp only [hp2]
              · exact Or.inr ⟨e, fs, rfl, rfl⟩
              · by_cases hz2 : dt2.numRows = 0
                · rw [if_pos hz2, if_pos hz2]
                  exact Or.inr ⟨Err.noSplats, fs, rfl, rfl⟩
                · rw [if_neg hz2, if_neg hz2]
                  rcases hw : writeFile wenv fs outputFilename dt2 defaultOptions
                    with ⟨we | wu, fs'⟩ <;> simp only [hw]
                  · exact Or.inr ⟨we, fs', rfl, rfl⟩
                  · exact Or.inl ⟨fs', rfl, rfl⟩
      · rw [if_neg hn, if_neg hn]
        exact Or.inr ⟨Err.unsupportedData filename, fs, rfl, rfl⟩
    · exact Or.inr ⟨Err.unsupportedData filename, fs, rfl, rfl⟩

/-! ### Combine: per-column semantics -/

/-- Data evolution of a single output column of identity `u` while one
input table's columns are copied at offset `off`. -/
def colCopyData (d : List Int) (u : Column) (cs : List Column) (off : Nat) : List Int :=
  cs.foldl (fun acc c => if colMatch u c then setData acc c.data off else acc) d

/-- Data evolution of a single output column of identity `u` over the whole
copy phase. -/
def colCopyAll : List Int → Column → List DataTable → Nat → List Int
  | d, _, [], _ => d
  | d, u, t :: rest, off =>
    colCopyAll (colCopyData d u t.columns off) u rest (off + t.numRows)

theorem colMatch_iff {a b : Column} :
    colMatch a b = true ↔ a.name = b.name ∧ a.dataType = b.dataType := by
  simp [colMatch]

theorem colMatch_comm (a b : Column) : colMatch a b = colMatch b a := by
  rw [Bool.eq_iff_iff, colMatch_iff, colMatch_iff]
  constructor
  · rintro ⟨h1, h2⟩
    exact ⟨h1.symm, h2.symm⟩
  · rintro ⟨h1, h2⟩
    exact ⟨h1.symm, h2.symm⟩

/-- The effect of one `copyColumnIn` step on one result column. -/
def updIf (c : Column) (off : Nat) (tc : Column) : Column :=
  if colMatch tc c then { tc with data := setData tc.data c.data off } else tc

theorem updIf_name (c : Column) (off : Nat) (tc : Column) :
    (updIf c off tc).name = tc.name := by
  unfold updIf
  split <;> rfl

theorem updIf_dataType (c : Column) (off : Nat) (tc : Column) :
    (updIf c off tc).dataType = tc.dataType := by
  unfold updIf
  split <;> rfl

theorem copyColumnIn_eq_map (cols : List Column) (c : Column) (off : Nat)
    (hp : cols.Pairwise distinctIdent) :
    copyColumnIn cols c off = cols.map (updIf c off) := by
  induction cols with
  | nil => rfl
  | cons tc rest ih =>
    rcases List.pairwise_cons.mp hp with ⟨htc, hrest⟩
    by_cases h : colMatch tc c = true
    · simp only [copyColumnIn, if_pos h, List.map_cons]
      rw [show updIf c off tc = { tc with data := setData tc.data c.data off } from
        by unfold updIf; rw [if_pos h]]
      congr 1
      have hid : ∀ x ∈ rest, updIf c off x = x := by
        intro x hx
        unfold updIf
        rw [if_neg]
        intro hxc
        rcases colMatch_iff.mp h with ⟨hn, hd⟩
        rcases colMatch_iff.mp hxc with ⟨hn2, hd2⟩
        exact htc x hx ⟨hn.trans hn2.symm, hd.trans hd2.symm⟩
      exact ((List.map_congr_left hid).trans (List.map_id rest)).symm
    · simp only [copyColumnIn, if_neg h, List.map_cons]
      rw [show updIf c off tc = tc from by unfold updIf; rw [if_neg h]]
      rw [ih hrest]

theorem pairwise_map_ident {cols : List Column} (g : Column → Column)
    (hg : ∀ tc, (g tc).name = tc.name ∧ (g tc).dataType = tc.dataType)
    (hp : cols.Pairwise distinctIdent) :
    (cols.map g).Pairwise distinctIdent := by
  rw [List.pairwise_map]
  refine hp.imp ?_
  intro a b hab
  unfold distinctIdent at hab ⊢
  rw [(hg a).1, (hg a).2, (hg b).1, (hg b).2]
  exact hab

theorem colCopyData_ident_congr {u v : Column} (hn : u.name = v.name)
    (hd : u.dataType = v.dataType) (d : List Int) (cs : List Column) (off : Nat) :
    colCopyData d u cs off = colCopyData d v cs off := by
  induction cs generalizing d with
  | nil => rfl
  | cons c cs ih =>
    simp only [colCopyData, List.foldl_cons]
    rw [show colMatch u c = colMatch v c from by simp [colMatch, hn, hd]]
    exact ih _

theorem colCopyAll_ident_congr {u v : Column} (hn : u.name = v.name)
    (hd : u.dataType = v.dataType) (d : List Int) (ts : List DataTable) (off : Nat) :
    colCopyAll d u ts off = colCopyAll d v ts off := by
  induction ts generalizing d off with
  | nil => rfl
  | cons t rest ih =>
    simp only [colCopyAll]
    rw [colCopyData_ident_congr hn hd]
    exact ih _ _

theorem updIf_colCopyData_point (tc c : Column) (cs : List Column) (off : Nat) :
    { updIf c off tc with
        data := colCopyData (updIf c off tc).data (updIf c off tc) cs off } =
      { tc with data := colCopyData tc.data tc (c :: cs) off } := by
  have hcons : colCopyData tc.data tc (c :: cs) off =
      colCopyData (if colMatch tc c = true then setData tc.data c.data off else tc.data)
        tc cs off := rfl
  by_cases h : colMatch tc c = true
  · simp only [updIf, if_pos h, hcons]
    congr 1
  · simp only [updIf, if_neg h, hcons]

theorem copyTable_eq_map (cols : List Column) (t : DataTable) (off : Nat)
    (hp : cols.Pairwise distinctIdent) :
    copyTable cols t off =
      cols.map (fun tc => { tc with data := colCopyData tc.data tc t.columns off }) := by
  unfold copyTable
  induction t.columns generalizing cols with
  | nil =>
    exact ((List.map_congr_left (fun a _ => rfl)).trans (List.map_id cols)).symm
  | cons c cs ih =>
    rw [List.foldl_cons, copyColumnIn_eq_map cols c off hp]
    rw [ih (cols.map (updIf c off))
      (pairwise_map_ident _ (fun tc => ⟨updIf_name c off tc, updIf_dataType c off tc⟩) hp)]
    rw [List.map_map]
    refine List.map_congr_left ?_
    intro tc _
    exact updIf_colCopyData_point tc c cs off

theorem colCopyAll_after_table (tc : Column) (t : DataTable) (rest : List DataTable)
    (off : Nat) :
    Column.mk tc.name tc.dataType
      (colCopyAll (colCopyData tc.data tc t.columns off)
        (Column.mk tc.name tc.dataType (colCopyData tc.data tc t.columns off)) rest
        (off + t.numRows)) =
    Column.mk tc.name tc.dataType (colCopyAll tc.data tc (t :: rest) off) := by
  rw [@colCopyAll_ident_congr
    (Column.mk tc.name tc.dataType (colCopyData tc.data tc t.columns off)) tc rfl rfl]
  rfl

theorem copyTables_eq_map (ts : List DataTable) (cols : List Column) (off : Nat)
    (hp : cols.Pairwise distinctIdent) :
    copyTables cols ts off =
      cols.map (fun tc => { tc with data := colCopyAll tc.data tc ts off }) := by
  induction ts generalizing cols off with
  | nil =>
    exact ((List.map_congr_left (fun a _ => rfl)).trans (List.map_id cols)).symm
  | cons t rest ih =>
    show copyTables (copyTable cols t off) rest (off + t.numRows) = _
    rw [copyTable_eq_map cols t off hp]
    rw [ih (cols.map (fun tc => { tc with data := colCopyData tc.data tc t.columns off }))
      (off + t.numRows) (pairwise_map_ident _ (fun tc => ⟨rfl, rfl⟩) hp)]
    rw [List.map_map]
    refine List.map_congr_left ?_
    intro tc _
    exact colCopyAll_after_table tc t rest off

theorem colCopyData_no_match (d : List Int) (u : Column) (cs : List Column) (off : Nat)
    (h : ∀ x ∈ cs, colMatch u x = false) : colCopyData d u cs off = d := by
  induction cs generalizing d with
  | nil => rfl
  | cons c cs ih =>
    simp only [colCopyData, List.foldl_cons, h c (List.mem_cons_self c cs)]
    exact ih _ (fun x hx => h x (List.mem_cons_of_mem c hx))

theorem colCopyData_eq_find (d : List Int) (u : Column) (cs : List Column) (off : Nat)
    (hp : cs.Pairwise distinctIdent) :
    colCopyData d u cs off =
      match findMatchingColumn cs u with
      | some c => setData d c.data off
      | none => d := by
  induction cs generalizing d with
  | nil => rfl
  | cons c cs ih =>
    rcases List.pairwise_cons.mp hp with ⟨hc, hcs⟩
    have hstep : colCopyData d u (c :: cs) off =
        colCopyData (if colMatch u c = true then setData d c.data off else d) u cs off := rfl
    by_cases h : colMatch u c = true
    · have hcu : colMatch c u = true := (colMatch_comm c u).trans h
      have hfind : findMatchingColumn (c :: cs) u = some c := by
        unfold findMatchingColumn
        exact List.find?_cons_of_pos _ hcu
      rw [hfind, hstep, if_pos h]
      refine colCopyData_no_match _ u cs off ?_
      intro x hx
      rcases Bool.eq_false_or_eq_true (colMatch u x) with htrue | hfalse
      · exfalso
        rcases colMatch_iff.mp h with ⟨hn, hd⟩
        rcases colMatch_iff.mp htrue with ⟨hn2, hd2⟩
        exact hc x hx ⟨hn.symm.trans hn2, hd.symm.trans hd2⟩
      · exact hfalse
    · have hcu : colMatch c u = false := by
        rcases Bool.eq_false_or_eq_true (colMatch c u) with htrue | hfalse
        · exact absurd ((colMatch_comm u c).trans htrue) h
        · exact hfalse
      have hfind : findMatchingColumn (c :: cs) u = findMatchingColumn cs u := by
        unfold findMatchingColumn
        exact List.find?_cons_of_neg _ (by rw [hcu]; exact Bool.false_ne_true)
      rw [hfind, hstep, if_neg h]
      exact ih _ hcs

theorem colCopyAll_spec (u : Column) (ts : List DataTable) (done : List Int)
    (hwf : ∀ t ∈ ts, t.wf) :
    colCopyAll
        (done ++ List.replicate ((ts.map DataTable.numRows).sum) u.dataType.zeroVal)
        u ts done.length =
      done ++ (ts.map (fun t => identData t u)).flatten := by
  induction ts generalizing done with
  | nil => simp [colCopyAll]
  | cons t rest ih =>
    have hwt : t.wf := hwf t (List.mem_cons_self t rest)
    have hwrest : ∀ t2 ∈ rest, t2.wf := fun t2 h2 => hwf t2 (List.mem_cons_of_mem t h2)
    have hsum : (((t :: rest).map DataTable.numRows).sum) =
        t.numRows + ((rest.map DataTable.numRows).sum) := by
      simp
    rw [hsum]
    have hsplit : done ++ List.replicate (t.numRows + (rest.map DataTable.numRows).sum)
          u.dataType.zeroVal =
        (done ++ List.replicate t.numRows u.dataType.zeroVal) ++
          List.replicate ((rest.map DataTable.numRows).sum) u.dataType.zeroVal := by
      rw [List.replicate_add, List.append_assoc]
    simp only [colCopyAll]
    rw [colCopyData_eq_find _ _ _ _ hwt.2]
    rcases hfind : findMatchingColumn t.columns u with _ | c
    · rw [hsplit]
      have hlen : (done ++ List.replicate t.numRows u.dataType.zeroVal).length =
          done.length + t.numRows := by
        simp
      rw [← hlen, ih _ hwrest]
      simp only [identData, hfind, List.map_cons, List.flatten_cons, List.append_assoc]
    · dsimp only
      have hfind2 : t.columns.find? (fun x => colMatch x u) = some c := hfind
      have hmem : c ∈ t.columns := List.mem_of_find?_eq_some hfind2
      have hclen : c.data.length = t.numRows := hwt.1 c hmem
      have hset : setData
          (done ++ List.replicate (t.numRows + (rest.map DataTable.numRows).sum)
            u.dataType.zeroVal) c.data done.length =
          (done ++ c.data) ++
            List.replicate ((rest.map DataTable.numRows).sum) u.dataType.zeroVal := by
        unfold setData
        rw [List.take_left, hclen, hsplit]
        have hlen2 : (done ++ List.replicate t.numRows u.dataType.zeroVal).length =
            done.length + t.numRows := by
          simp
        rw [List.drop_left' hlen2, List.append_assoc]
      rw [hset]
      have hlen3 : (done ++ c.data).length = done.length + t.numRows := by
        simp [hclen]
      rw [← hlen3, ih _ hwrest]
      simp only [identData, hfind, List.map_cons, List.flatten_cons, List.append_assoc]

/-! ### Unified column list lemmas -/

/-- One step of the unified-list construction. -/
def addColumn (acc : List Column) (c : Column) : List Column :=
  if (findMatchingColumn acc c).isSome then acc else acc ++ [c]

theorem unifyColumns_eq (t0 : DataTable) (rest : List DataTable) :
    unifyColumns (t0 :: rest) =
      rest.foldl (fun acc t => t.columns.foldl addColumn acc) t0.columns := rfl

theorem addColumn_eq_of_none {acc : List Column} {c : Column}
    (h : findMatchingColumn acc c = none) : addColumn acc c = acc ++ [c] := by
  unfold addColumn
  rw [h]
  rfl

theorem addColumn_eq_of_some {acc : List Column} {c m : Column}
    (h : findMatchingColumn acc c = some m) : addColumn acc c = acc := by
  unfold addColumn
  rw [h]
  rfl

theorem addColumn_pairwise {acc : List Column} (c : Column)
    (hp : acc.Pairwise distinctIdent) : (addColumn acc c).Pairwise distinctIdent := by
  rcases hfind : findMatchingColumn acc c with _ | m
  · rw [addColumn_eq_of_none hfind]
    rw [List.pairwise_append]
    refine ⟨hp, List.pairwise_singleton _ _, ?_⟩
    intro a ha b hb
    rw [List.mem_singleton] at hb
    rw [hb]
    have hfind2 : acc.find? (fun x => colMatch x c) = none := hfind
    have hall := List.find?_eq_none.mp hfind2
    intro hid
    exact absurd (colMatch_iff.mpr hid) (hall a ha)
  · rw [addColumn_eq_of_some hfind]
    exact hp

theorem foldl_addColumn_pairwise (cs : List Column) {acc : List Column}
    (hp : acc.Pairwise distinctIdent) :
    (cs.foldl addColumn acc).Pairwise distinctIdent := by
  induction cs generalizing acc with
  | nil => exact hp
  | cons c cs ih => exact ih (addColumn_pairwise c hp)

theorem unifyColumns_pairwise (t0 : DataTable) (rest : List DataTable)
    (hp : t0.columns.Pairwise distinctIdent) :
    (unifyColumns (t0 :: rest)).Pairwise distinctIdent := by
  rw [unifyColumns_eq]
  induction rest generalizing t0 with
  | nil => exact hp
  | cons t rest ih =>
    rw [List.foldl_cons]
    have h2 := foldl_addColumn_pairwise t.columns hp
    exact ih (DataTable.mk (t.columns.foldl addColumn t0.columns)) h2

theorem addColumn_mono {acc : List Column} {a : Column} (c : Column)
    (ha : a ∈ acc) : a ∈ addColumn acc c := by
  rcases hfind : findMatchingColumn acc c with _ | m
  · rw [addColumn_eq_of_none hfind]
    exact List.mem_append_left _ ha
  · rw [addColumn_eq_of_some hfind]
    exact ha

theorem foldl_addColumn_mono (cs : List Column) {acc : List Column} {a : Column}
    (ha : a ∈ acc) : a ∈ cs.foldl addColumn acc := by
  induction cs generalizing acc with
  | nil => exact ha
  | cons c cs ih => exact ih (addColumn_mono c ha)

theorem outer_foldl_mono (rest : List DataTable) {acc : List Column} {a : Column}
    (ha : a ∈ acc) :
    a ∈ rest.foldl (fun acc2 t => t.columns.foldl addColumn acc2) acc := by
  induction rest generalizing acc with
  | nil => exact ha
  | cons t rest ih => exact ih (foldl_addColumn_mono t.columns ha)

theorem foldl_addColumn_covers (cs : List Column) (acc : List Column) {c : Column}
    (hc : c ∈ cs) :
    ∃ u ∈ cs.foldl addColumn acc, u.name = c.name ∧ u.dataType = c.dataType := by
  induction cs generalizing acc with
  | nil => cases hc
  | cons c0 cs ih =>
    rw [List.foldl_cons]
    rcases List.mem_cons.mp hc with hh | ht
    · subst hh
      rcases hfind : findMatchingColumn acc c with _ | m
      · rw [addColumn_eq_of_none hfind]
        exact ⟨c, foldl_addColumn_mono cs
          (List.mem_append_right acc (List.mem_singleton.mpr rfl)), rfl, rfl⟩
      · rw [addColumn_eq_of_some hfind]
        have hfind2 : acc.find? (fun x => colMatch x c) = some m := hfind
        have hm : m ∈ acc := List.mem_of_find?_eq_some hfind2
        have hmc := List.find?_some hfind2
        rcases colMatch_iff.mp hmc with ⟨hn, hd⟩
        exact ⟨m, foldl_addColumn_mono cs hm, hn, hd⟩
    · exact ih (addColumn acc c0) ht

theorem unifyColumns_covers (t0 : DataTable) (rest : List DataTable) (t : DataTable)
    (ht : t ∈ t0 :: rest) {c : Column} (hc : c ∈ t.columns) :
    ∃ u ∈ unifyColumns (t0 :: rest), u.name = c.name ∧ u.dataType = c.dataType := by
  rw [unifyColumns_eq]
  rcases List.mem_cons.mp ht with hh | htail
  · subst hh
    exact ⟨c, outer_foldl_mono rest hc, rfl, rfl⟩
  · clear ht
    induction rest generalizing t0 with
    | nil => cases htail
    | cons t1 rest ih =>
      rcases List.mem_cons.mp htail with hh1 | ht1
      · subst hh1
        rw [List.foldl_cons]
        obtain ⟨u, hu, hun, hud⟩ := foldl_addColumn_covers t.columns t0.columns hc
        exact ⟨u, outer_foldl_mono rest hu, hun, hud⟩
      · rw [List.foldl_cons]
        exact ih (DataTable.mk (t1.columns.foldl addColumn t0.columns)) ht1

/-! ### Combine master characterization -/

theorem identData_length {t : DataTable} (u : Column) (hwf : t.wf) :
    (identData t u).length = t.numRows := by
  unfold identData
  rcases hfind : findMatchingColumn t.columns u with _ | c
  · exact List.length_replicate _ _
  · have hfind2 : t.columns.find? (fun x => colMatch x u) = some c := hfind
    exact hwf.1 c (List.mem_of_find?_eq_some hfind2)

theorem pieces_length (u : Column) (ts : List DataTable) (hwf : ∀ t ∈ ts, t.wf) :
    ((ts.map (fun t => identData t u)).flatten).length =
      (ts.map DataTable.numRows).sum := by
  rw [List.length_flatten, List.map_map]
  refine congrArg List.sum ?_
  refine List.map_congr_left ?_
  intro t ht
  exact identData_length u (hwf t ht)

theorem combine_master (t1 t2 : DataTable) (rest : List DataTable)
    (hwf : ∀ t ∈ t1 :: t2 :: rest, t.wf) :
    combine (t1 :: t2 :: rest) = some (DataTable.mk
      ((unifyColumns (t1 :: t2 :: rest)).map
        (fun u => Column.mk u.name u.dataType
          (((t1 :: t2 :: rest).map (fun t => identData t u)).flatten)))) := by
  have hc : combine (t1 :: t2 :: rest) = some (DataTable.mk
      (copyTables
        ((unifyColumns (t1 :: t2 :: rest)).map
          (fun column => Column.mk column.name column.dataType
            (List.replicate (((t1 :: t2 :: rest).map DataTable.numRows).sum)
              column.dataType.zeroVal)))
        (t1 :: t2 :: rest) 0)) := rfl
  rw [hc]
  have hpu : (unifyColumns (t1 :: t2 :: rest)).Pairwise distinctIdent :=
    unifyColumns_pairwise t1 (t2 :: rest) (hwf t1 (List.mem_cons_self _ _)).2
  have hpr : ((unifyColumns (t1 :: t2 :: rest)).map
      (fun column => Column.mk column.name column.dataType
        (List.replicate (((t1 :: t2 :: rest).map DataTable.numRows).sum)
          column.dataType.zeroVal))).Pairwise distinctIdent :=
    pairwise_map_ident _ (fun tc => ⟨rfl, rfl⟩) hpu
  rw [copyTables_eq_map _ _ _ hpr, List.map_map]
  refine congrArg (fun cols => some (DataTable.mk cols)) ?_
  refine List.map_congr_left ?_
  intro u _
  show Column.mk u.name u.dataType
      (colCopyAll
        (List.replicate (((t1 :: t2 :: rest).map DataTable.numRows).sum) u.dataType.zeroVal)
        (Column.mk u.name u.dataType
          (List.replicate (((t1 :: t2 :: rest).map DataTable.numRows).sum)
            u.dataType.zeroVal))
        (t1 :: t2 :: rest) 0) = _
  rw [@colCopyAll_ident_congr
    (Column.mk u.name u.dataType
      (List.replicate (((t1 :: t2 :: rest).map DataTable.numRows).sum) u.dataType.zeroVal))
    u rfl rfl]
  have hspec := colCopyAll_spec u (t1 :: t2 :: rest) [] hwf
  rw [List.nil_append, List.nil_append, List.length_nil] at hspec
  rw [hspec]

theorem find_of_mem_pairwise {cs : List Column} {c u : Column}
    (hp : cs.Pairwise distinctIdent) (hmem : c ∈ cs)
    (hn : c.name = u.name) (hd : c.dataType = u.dataType) :
    findMatchingColumn cs u = some c := by
  induction cs with
  | nil => cases hmem
  | cons c0 cs ih =>
    rcases List.pairwise_cons.mp hp with ⟨hc0, hcs⟩
    rcases List.mem_cons.mp hmem with hh | ht
    · subst hh
      unfold findMatchingColumn
      exact List.find?_cons_of_pos _ (colMatch_iff.mpr ⟨hn, hd⟩)
    · have hc0u : colMatch c0 u = false := by
        rcases Bool.eq_false_or_eq_true (colMatch c0 u) with htrue | hfalse
        · exfalso
          rcases colMatch_iff.mp htrue with ⟨hn0, hd0⟩
          exact hc0 c ht ⟨hn0.trans hn.symm, hd0.trans hd.symm⟩
        · exact hfalse
      have hstep : findMatchingColumn (c0 :: cs) u = findMatchingColumn cs u := by
        unfold findMatchingColumn
        exact List.find?_cons_of_neg _ (by rw [hc0u]; exact Bool.false_ne_true)
      rw [hstep]
      exact ih hcs ht

theorem flatten_slice (u : Column) (ts : List DataTable) (hwf : ∀ t ∈ ts, t.wf)
    (k : Nat) :
    ((ts.map (fun t => identData t u)).flatten.drop
        (((ts.take k).map DataTable.numRows).sum)) =
      ((ts.drop k).map (fun t => identData t u)).flatten := by
  induction k generalizing ts with
  | zero => simp
  | succ k ih =>
    rcases ts with _ | ⟨t, ts2⟩
    · simp
    · have hwt : t.wf := hwf t (List.mem_cons_self t ts2)
      have hwrest : ∀ t2 ∈ ts2, t2.wf := fun t2 h2 => hwf t2 (List.mem_cons_of_mem t h2)
      simp only [List.take_succ_cons, List.map_cons, List.sum_cons, List.flatten_cons,
        List.drop_succ_cons]
      rw [← List.drop_drop]
      have hlen : (identData t u).length = t.numRows := identData_length u hwt
      rw [← hlen, List.drop_left]
      exact ih ts2 hwrest

/-- C2: for every nonempty sequence of well-formed tables, `combine`
returns a table whose `numRows` is the sum of the inputs' `numRows`, and
for every input table and every column present in it, that column's data
appears unchanged in the matching output column starting at the running
row offset (0 for the first table, incremented by each table's `numRows`
in order). -/
theorem combine_appends_rows (ts : List DataTable) (hne : ts ≠ [])
    (hwf : ∀ t ∈ ts, t.wf) :
    ∃ r, combine ts = some r ∧
      r.numRows = (ts.map DataTable.numRows).sum ∧
      ∀ k, ∀ hk : k < ts.length, ∀ c ∈ (ts.get ⟨k, hk⟩).columns,
        ∃ o, findMatchingColumn r.columns c = some o ∧
          o.name = c.name ∧ o.dataType = c.dataType ∧
          ((o.data.drop (((ts.take k).map DataTable.numRows).sum)).take c.data.length)
            = c.data := by
  rcases ts with _ | ⟨t1, _ | ⟨t2, rest⟩⟩
  · exact absurd rfl hne
  · refine ⟨t1, combine_singleton t1, by simp, ?_⟩
    intro k hk c hc
    have hk0 : k = 0 := Nat.lt_one_iff.mp (by simpa using hk)
    subst hk0
    have hw : t1.wf := hwf t1 (List.mem_cons_self _ _)
    refine ⟨c, find_of_mem_pairwise hw.2 hc rfl rfl, rfl, rfl, ?_⟩
    simp
  · have hmaster := combine_master t1 t2 rest hwf
    refine ⟨_, hmaster, ?_, ?_⟩
    · rcases huni : unifyColumns (t1 :: t2 :: rest) with _ | ⟨u0, us⟩
      · have hzero : ∀ x ∈ (t1 :: t2 :: rest).map DataTable.numRows, x = 0 := by
          intro x hx
          obtain ⟨t, ht, hxt⟩ := List.mem_map.mp hx
          have hcols : t.columns = [] := by
            rw [List.eq_nil_iff_forall_not_mem]
            intro c hc
            obtain ⟨u, hu, -⟩ := unifyColumns_covers t1 (t2 :: rest) t ht hc
            rw [huni] at hu
            cases hu
          rw [← hxt]
          unfold DataTable.numRows
          rw [hcols]
        rw [(List.sum_eq_zero hzero : ((t1 :: t2 :: rest).map DataTable.numRows).sum = 0)]
        rfl
      · show (Column.mk u0.name u0.dataType
          (((t1 :: t2 :: rest).map (fun t => identData t u0)).flatten)).data.length = _
        exact pieces_length u0 (t1 :: t2 :: rest) hwf
    · intro k hk c hc
      have htk : (t1 :: t2 :: rest).get ⟨k, hk⟩ ∈ t1 :: t2 :: rest := List.get_mem _ _ _
      have hwk : ((t1 :: t2 :: rest).get ⟨k, hk⟩).wf := hwf _ htk
      obtain ⟨u', hu'mem, hn', hd'⟩ := unifyColumns_covers t1 (t2 :: rest) _ htk hc
      have hsome : ((unifyColumns (t1 :: t2 :: rest)).find? (fun x => colMatch x c)).isSome := by
        rw [List.find?_isSome]
        exact ⟨u', hu'mem, colMatch_iff.mpr ⟨hn', hd'⟩⟩
      obtain ⟨u, hu⟩ := Option.isSome_iff_exists.mp hsome
      have hmatch := List.find?_some hu
      rcases colMatch_iff.mp hmatch with ⟨hun, hud⟩
      refine ⟨Column.mk u.name u.dataType
        (((t1 :: t2 :: rest).map (fun t => identData t u)).flatten), ?_, hun, hud, ?_⟩
      · show ((unifyColumns (t1 :: t2 :: rest)).map
          (fun v => Column.mk v.name v.dataType
            (((t1 :: t2 :: rest).map (fun t => identData t v)).flatten))).find?
              (fun x => colMatch x c) = _
        rw [List.find?_map]
        have hcomp : ((fun x => colMatch x c) ∘
            (fun v => Column.mk v.name v.dataType
              (((t1 :: t2 :: rest).map (fun t => identData t v)).flatten))) =
            (fun x => colMatch x c) := by
          funext x
          rfl
        rw [hcomp, hu]
        rfl
      · show ((((t1 :: t2 :: rest).map (fun t => identData t u)).flatten.drop
          (((List.take k (t1 :: t2 :: rest)).map DataTable.numRows).sum)).take
            c.data.length) = c.data
        rw [flatten_slice u (t1 :: t2 :: rest) hwf k]
        rw [List.drop_eq_getElem_cons hk, List.map_cons, List.flatten_cons]
        have hident : identData ((t1 :: t2 :: rest).get ⟨k, hk⟩) u = c.data := by
          unfold identData
          rw [find_of_mem_pairwise hwk.2 hc hun.symm hud.symm]
        rw [show identData ((t1 :: t2 :: rest)[k]) u =
          identData ((t1 :: t2 :: rest).get ⟨k, hk⟩) u from rfl]
        rw [hident]
        exact List.take_left _ _

/-- C3: for every sequence of two or more well-formed tables and every
column identity (name, elementType) present in some input, the combined
output column's rows in the row range of any table lacking that identity
equal the zero value of that element type — zero-fill, never an error. -/
theorem combine_zero_fills (ts : List DataTable) (h2 : 2 ≤ ts.length)
    (hwf : ∀ t ∈ ts, t.wf) (n : String) (dt : DataType)
    (hsome : ∃ t ∈ ts, ∃ c ∈ t.columns, c.name = n ∧ c.dataType = dt) :
    ∀ k, ∀ hk : k < ts.length,
      (∀ c ∈ (ts.get ⟨k, hk⟩).columns, ¬(c.name = n ∧ c.dataType = dt)) →
      ∃ r o, combine ts = some r ∧
        findMatchingColumn r.columns (Column.mk n dt []) = some o ∧
        o.name = n ∧ o.dataType = dt ∧
        ((o.data.drop (((ts.take k).map DataTable.numRows).sum)).take
          ((ts.get ⟨k, hk⟩).numRows)) =
          List.replicate ((ts.get ⟨k, hk⟩).numRows) dt.zeroVal := by
  rcases ts with _ | ⟨t1, _ | ⟨t2, rest⟩⟩
  · simp at h2
  · simp at h2
  · intro k hk hlack
    have hmaster := combine_master t1 t2 rest hwf
    obtain ⟨t, htmem, c0, hc0, hc0n, hc0d⟩ := hsome
    obtain ⟨u', hu'mem, hn', hd'⟩ := unifyColumns_covers t1 (t2 :: rest) t htmem hc0
    have hsome2 : ((unifyColumns (t1 :: t2 :: rest)).find?
        (fun x => colMatch x (Column.mk n dt []))).isSome := by
      rw [List.find?_isSome]
      exact ⟨u', hu'mem, colMatch_iff.mpr ⟨hn'.trans hc0n, hd'.trans hc0d⟩⟩
    obtain ⟨u, hu⟩ := Option.isSome_iff_exists.mp hsome2
    have hmatch := List.find?_some hu
    rcases colMatch_iff.mp hmatch with ⟨hun, hud⟩
    have hun2 : u.name = n := hun
    have hud2 : u.dataType = dt := hud
    refine ⟨_, Column.mk u.name u.dataType
      (((t1 :: t2 :: rest).map (fun t => identData t u)).flatten),
      hmaster, ?_, hun2, hud2, ?_⟩
    · show ((unifyColumns (t1 :: t2 :: rest)).map
        (fun v => Column.mk v.name v.dataType
          (((t1 :: t2 :: rest).map (fun t => identData t v)).flatten))).find?
            (fun x => colMatch x (Column.mk n dt [])) = _
      rw [List.find?_map]
      have hcomp : ((fun x => colMatch x (Column.mk n dt [])) ∘
          (fun v => Column.mk v.name v.dataType
            (((t1 :: t2 :: rest).map (fun t => identData t v)).flatten))) =
          (fun x => colMatch x (Column.mk n dt [])) := by
        funext x
        rfl
      rw [hcomp, hu]
      rfl
    · show ((((t1 :: t2 :: rest).map (fun t => identData t u)).flatten.drop
        (((List.take k (t1 :: t2 :: rest)).map DataTable.numRows).sum)).take
          (((t1 :: t2 :: rest).get ⟨k, hk⟩).numRows)) = _
      rw [flatten_slice u (t1 :: t2 :: rest) hwf k]
      rw [List.drop_eq_getElem_cons hk, List.map_cons, List.flatten_cons]
      have hnone : findMatchingColumn ((t1 :: t2 :: rest).get ⟨k, hk⟩).columns u = none := by
        unfold findMatchingColumn
        rw [List.find?_eq_none]
        intro x hx hcontra
        rcases colMatch_iff.mp hcontra with ⟨hxn, hxd⟩
        exact hlack x hx ⟨hxn.trans hun2, hxd.trans hud2⟩
      have hident : identData ((t1 :: t2 :: rest).get ⟨k, hk⟩) u =
          List.replicate (((t1 :: t2 :: rest).get ⟨k, hk⟩).numRows) u.dataType.zeroVal := by
        unfold identData
        rw [hnone]
      rw [show identData ((t1 :: t2 :: rest)[k]) u =
        identData ((t1 :: t2 :: rest).get ⟨k, hk⟩) u from rfl]
      rw [hident, hud2]
      exact List.take_left' (List.length_replicate _ _)

/-- First witness table: columns x, y, z with 2 rows (spec §8 example). -/
def tA : DataTable :=
  DataTable.mk
    [Column.mk "x" .float32 [1, 2], Column.mk "y" .float32 [3, 4],
     Column.mk "z" .float32 [5, 6]]

/-- Second witness table: columns x, y, z, opacity with 3 rows (spec §8
example). -/
def tB : DataTable :=
  DataTable.mk
    [Column.mk "x" .float32 [7, 8, 9], Column.mk "y" .float32 [10, 11, 12],
     Column.mk "z" .float32 [13, 14, 15], Column.mk "opacity" .float32 [16, 17, 18]]

/-- C2 witness: the spec §8 example pair of tables (2 rows and 3 rows). -/
theorem combine_appends_rows_witness :
    ∃ r, combine [tA, tB] = some r ∧
      r.numRows = ([tA, tB].map DataTable.numRows).sum ∧
      ∀ k, ∀ hk : k < [tA, tB].length, ∀ c ∈ ([tA, tB].get ⟨k, hk⟩).columns,
        ∃ o, findMatchingColumn r.columns c = some o ∧
          o.name = c.name ∧ o.dataType = c.dataType ∧
          ((o.data.drop ((([tA, tB].take k).map DataTable.numRows).sum)).take
            c.data.length) = c.data :=
  combine_appends_rows [tA, tB] (List.cons_ne_nil _ _) (by decide)

/-- C3 witness: opacity is present in the second table only, so the first
table's row range of the combined opacity column is zero-filled. -/
theorem combine_zero_fills_witness :
    ∃ r o, combine [tA, tB] = some r ∧
      findMatchingColumn r.columns (Column.mk "opacity" .float32 []) = some o ∧
      o.name = "opacity" ∧ o.dataType = .float32 ∧
      ((o.data.drop ((([tA, tB].take 0).map DataTable.numRows).sum)).take
        (([tA, tB].get ⟨0, by decide⟩).numRows)) =
        List.replicate (([tA, tB].get ⟨0, by decide⟩).numRows)
          DataType.float32.zeroVal :=
  combine_zero_fills [tA, tB] (by decide) (by decide) "opacity" .float32
    ⟨tB, by decide, Column.mk "opacity" .float32 [16, 17, 18], by decide, rfl, rfl⟩
    0 (by decide) (by decide)
